import Mathlib

/-!
Verification of the "Process SR Report" watcher (`watch_and_process.py`).

Python strings are modelled as `List Char`; Python machine values that the
transform touches (cell contents) are modelled by the inductive `CellValue`.
Sizes, timestamps and time differences are modelled as `Nat`/`Int` seconds.
Fallible operating-system and COM calls are modelled by explicit environment
records carrying the outcome of each external call; a Python exception is an
explicit `Except`/`Option` error value.
-/

/-! ## Python string primitives (over `List Char`) -/

/-- The whitespace characters stripped by Python's `str.strip()` and matched by
the regex class `\s` (ASCII range; the model ignores exotic Unicode spaces). -/
def isPyWS (c : Char) : Bool :=
  c = ' ' || c = '\t' || c = '\n' || c = '\r' || c = '\x0b' || c = '\x0c'

/-- Python `str.strip()`: drop whitespace from both ends. -/
def pyStrip (l : List Char) : List Char :=
  ((l.dropWhile isPyWS).reverse.dropWhile isPyWS).reverse

/-- Python `str.rstrip(ch)` for a single character: drop trailing copies of `ch`. -/
def rstripChar (ch : Char) (l : List Char) : List Char :=
  (l.reverse.dropWhile (fun c => c = ch)).reverse

/-- `startsWithL l p`: Python `l.startswith(p)`. -/
def startsWithL : List Char → List Char → Bool
  | _, [] => true
  | [], _ :: _ => false
  | c :: l, p :: ps => c = p && startsWithL l ps

/-- `containsL l sep`: Python `sep in l` (substring test). -/
def containsL : List Char → List Char → Bool
  | [], sep => startsWithL [] sep
  | c :: t, sep => startsWithL (c :: t) sep || containsL t sep

/-- Case-insensitive `startswith` against an already-lowercased pattern:
models Python's `s.upper().startswith(PAT)` / `s.lower().startswith(pat)`
for ASCII patterns. -/
def startsWithCI : List Char → List Char → Bool
  | _, [] => true
  | [], _ :: _ => false
  | c :: l, p :: ps => c.toLower = p && startsWithCI l ps

/-! ## The bare-URL scan: `re.search(r"https?://\S+", val, re.IGNORECASE)` -/

/-- Try to match `https?://\S+` anchored at the head of `l`
(the `s?` backtracking point is resolved by the character at index 4,
so the two alternatives are mutually exclusive).  Returns the matched
text (`m.group(0)`, original case) on success. -/
def matchHttpAt (l : List Char) : Option (List Char) :=
  if startsWithCI l ['h', 't', 't', 'p', 's', ':', '/', '/'] then
    match (l.drop 8).takeWhile (fun c => !isPyWS c) with
    | [] => none
    | m => some (l.take 8 ++ m)
  else if startsWithCI l ['h', 't', 't', 'p', ':', '/', '/'] then
    match (l.drop 7).takeWhile (fun c => !isPyWS c) with
    | [] => none
    | m => some (l.take 7 ++ m)
  else none

/-- `re.search`: leftmost match of `https?://\S+` in `l`, if any. -/
def findUrl : List Char → Option (List Char)
  | [] => none
  | c :: t =>
    match matchHttpAt (c :: t) with
    | some m => some m
    | none => findUrl t

/-! ## `parse_hyperlink_formula` -/

/-- The lowercase formula head checked by
`s.upper().startswith("=HYPERLINK(")`. -/
def hyperPat : List Char := ['=', 'h', 'y', 'p', 'e', 'r', 'l', 'i', 'n', 'k', '(']

/-- The argument-scanning loop of `parse_hyperlink_formula`: walk the
character list tracking the in-quotes flag `inq`; an unquoted `,` or `;`
flushes the (stripped) buffer into the parts list; a trailing non-empty
buffer is flushed at the end. -/
def scanArgs : List Char → Bool → List Char → List (List Char) → List (List Char)
  | [], _, buf, parts => if buf.isEmpty then parts else parts ++ [pyStrip buf]
  | ch :: rest, inq, buf, parts =>
    if ch = '"' then scanArgs rest (!inq) (buf ++ [ch]) parts
    else if !inq && (ch = ',' || ch = ';') then scanArgs rest inq [] (parts ++ [pyStrip buf])
    else scanArgs rest inq (buf ++ [ch]) parts

/-- `clean(t)`: strip one surrounding pair of double quotes
(`t[1:-1] if t.startswith('"') and t.endswith('"') else t`). -/
def cleanArg (t : List Char) : List Char :=
  if t.head? = some '"' ∧ t.getLast? = some '"' then (t.drop 1).dropLast else t

/-- `parse_hyperlink_formula(formula)`; returns `(url, text)` as options
(Python returns `url or None, text or None`).  `s[s.find("(")+1:]` is modelled
by dropping up to and including the first `'('`, which agrees with the code
whenever the `=HYPERLINK(` guard has succeeded (so a `'('` is present). -/
def parse_hyperlink_formula (formula : List Char) : Option (List Char) × Option (List Char) :=
  let s := pyStrip formula
  if startsWithCI s hyperPat then
    let inside := rstripChar ')' ((s.dropWhile (fun c => !(c = '('))).drop 1)
    let parts := scanArgs inside false [] []
    let url := match parts with
      | [] => []
      | p :: _ => cleanArg p
    let text := match parts with
      | _ :: q :: _ => cleanArg q
      | _ => []
    (if url.isEmpty then none else some url, if text.isEmpty then none else some text)
  else (none, none)

/-! ## Cells and the per-cell transform (`transform_workbook` body, lines 221-241) -/

/-- A cell value as `openpyxl` hands it back: a string, an integer, or empty.
(The model covers the value types the claims mention; `str()` of each is
`pyStr`.) -/
inductive CellValue where
  | vStr (s : List Char)
  | vInt (n : Int)
deriving DecidableEq, Repr

/-- Python `str(v)` on a cell value. -/
def pyStr : CellValue → List Char
  | .vStr s => s
  | .vInt n => (toString n).toList

/-- A worksheet cell: optional value, plus the target of an attached
hyperlink object if any (`cell.hyperlink.target`). -/
structure Cell where
  value : Option CellValue
  hyperlink : Option (List Char)
deriving DecidableEq, Repr

/-- `val = "" if cell.value is None else str(cell.value)`. -/
def cellText (c : Cell) : List Char :=
  match c.value with
  | none => []
  | some v => pyStr v

/-- `cell.hyperlink and getattr(cell.hyperlink, "target", None)`: the hyperlink
target when a hyperlink object is attached and its target is truthy. -/
def hyperlinkUrl (c : Cell) : Option (List Char) :=
  match c.hyperlink with
  | some t => if t.isEmpty then none else some t
  | none => none

/-- The formula branch (`u, t = parse_hyperlink_formula(val); if u: url = u;
if t: val = t`): returns the (possibly replaced) text and the found url. -/
def formulaTextUrl (val : List Char) : List Char × Option (List Char) :=
  match parse_hyperlink_formula val with
  | (some u, some t) => (t, some u)
  | (some u, none) => (val, some u)
  | (none, _) => (val, none)

/-- Lines 225-232: hyperlink target first, else the formula branch when the
text starts with `=`. -/
def preUrl (c : Cell) (val : List Char) : List Char × Option (List Char) :=
  match hyperlinkUrl c with
  | some t => (val, some t)
  | none => if val.head? = some '=' then formulaTextUrl val else (val, none)

/-- Lines 222-235: the cell's display text and discovered url after the
hyperlink / formula / bare-regex cascade. -/
def cellDisplayUrl (c : Cell) : List Char × Option (List Char) :=
  match preUrl c (cellText c) with
  | (val, some u) => (val, some u)
  | (val, none) => (val, findUrl val)

/-- Lines 237-241: write `val + sep + url` when a url was found and `sep` is
not already a substring of `val`; otherwise write `val` back.  Returns the new
cell and whether `changed` was incremented. -/
def transformCell (c : Cell) (sep : List Char) : Cell × Bool :=
  match cellDisplayUrl c with
  | (val, some url) =>
    if containsL val sep then ({ c with value := some (.vStr val) }, false)
    else ({ c with value := some (.vStr (val ++ sep ++ url)) }, true)
  | (val, none) => ({ c with value := some (.vStr val) }, false)

/-! ## Worksheets and `transform_workbook` -/

/-- The first worksheet of a workbook: `ws.max_row` plus the cell grid
(`ws.cell(row=r, column=c)`), indexed by (row, column). -/
@[ext]
structure Worksheet where
  maxRow : Nat
  cells : Nat → Nat → Cell

/-- Writing one cell back (`cell.value = ...` at row `r`, column `c`). -/
def updateCell (ws : Worksheet) (r c : Nat) (newCell : Cell) : Worksheet :=
  { ws with cells := fun i j => if i = r ∧ j = c then newCell else ws.cells i j }

/-- The `for r in range(start_row, max_row+1)` loop over the given row list:
transform the cell in column `col` of each row in order, accumulating the
`changed` count. -/
def transformRows (col : Nat) (sep : List Char) : Worksheet → List Nat → Worksheet × Nat
  | ws, [] => (ws, 0)
  | ws, r :: rs =>
    let p := transformCell (ws.cells r col) sep
    let next := transformRows col sep (updateCell ws r col p.1) rs
    (next.1, (if p.2 then 1 else 0) + next.2)

/-- `transform_workbook(xlsx_path, start_row, col_b, sep)`: early-exit save
when `max_row < start_row`, else one pass over rows `start_row..max_row` of
column `col_b`.  Returns the saved worksheet and the `changed` count. -/
def transform_workbook (ws : Worksheet) (start_row col_b : Nat) (sep : List Char) :
    Worksheet × Nat :=
  if ws.maxRow < start_row then (ws, 0)
  else transformRows col_b sep ws (List.range' start_row (ws.maxRow + 1 - start_row))

/-! ## `is_file_fresh_enough` -/

/-- `is_file_fresh_enough(p, max_hours)`: `stat` is the outcome of
`p.stat().st_mtime` (`none` when it raises, which the code turns into
`False`); `now` is `datetime.now()`; both in seconds.  The comparison is
`age <= timedelta(hours=max_hours)`. -/
def is_file_fresh_enough (stat : Option Int) (now : Int) (maxHours : Int) : Bool :=
  match stat with
  | none => false
  | some mtime => decide (now - mtime ≤ maxHours * 3600)

/-! ## `is_file_stable` -/

/-- One run of the `while same < stable_secs` loop of `is_file_stable`,
with explicit fuel bounding how many one-second iterations we observe.
`obs i` is the outcome of the `i`-th existence/size check (`none`: the file
vanished; `some size` otherwise); `last`/`same` are the loop variables
(`last` starts at `-1`).  Returns `some b` when the loop returned `b` within
`fuel` iterations and `none` when it is still polling after `fuel`
iterations (each iteration ends in `time.sleep(1)`, so `fuel` iterations
block the thread for `fuel` seconds). -/
def isFileStableAux (obs : Nat → Option Nat) (stableSecs : Nat) :
    Nat → Nat → Int → Nat → Option Bool
  | fuel, t, last, same =>
    if stableSecs ≤ same then some true
    else
      match fuel with
      | 0 => none
      | fuel + 1 =>
        match obs t with
        | none => some false
        | some size =>
          if (size : Int) = last ∧ 0 < size then
            isFileStableAux obs stableSecs fuel (t + 1) last (same + 1)
          else
            isFileStableAux obs stableSecs fuel (t + 1) (size : Int) 0

/-- `is_file_stable(p, stable_secs)` observed for at most `fuel` iterations. -/
def is_file_stable (obs : Nat → Option Nat) (stableSecs fuel : Nat) : Option Bool :=
  isFileStableAux obs stableSecs fuel 0 (-1) 0

/-! ## `excel_xls_to_xlsx` (the COM automation sequence) -/

/-- The external automation calls of `excel_xls_to_xlsx`, in source order. -/
inductive ComAction where
  | dispatchApp
  | setVisible
  | openWorkbook
  | saveAsXlsx
  | closeWorkbook
  | quitApp
deriving DecidableEq, Repr

inductive ComError where
  | pywin32Missing
  | comFailure
deriving DecidableEq, Repr

instance : DecidableEq (Except ComError Unit) := fun a b =>
  match a, b with
  | .error x, .error y =>
    if h : x = y then .isTrue (by rw [h]) else .isFalse (fun hh => h (Except.error.inj hh))
  | .error _, .ok _ => .isFalse (fun hh => Except.noConfusion hh)
  | .ok _, .error _ => .isFalse (fun hh => Except.noConfusion hh)
  | .ok x, .ok y => .isTrue (by cases x; cases y; rfl)

/-- The environment of one `excel_xls_to_xlsx` run: whether `win32` imported,
and which COM call (if any) raises.  A call that raises does not complete, so
it is not recorded in the trace of completed calls. -/
structure ComEnv where
  win32Available : Bool
  dispatchRaises : Bool
  openRaises : Bool
  saveRaises : Bool
  closeRaises : Bool
  quitRaises : Bool
deriving DecidableEq, Repr

/-- `excel_xls_to_xlsx`: the straight-line open/save/close/quit sequence with
no `try`/`finally`.  Returns the trace of completed automation calls and
either success or the first raised error (which propagates to the caller). -/
def excel_xls_to_xlsx (e : ComEnv) : List ComAction × Except ComError Unit :=
  if !e.win32Available then ([], .error .pywin32Missing)
  else if e.dispatchRaises then ([], .error .comFailure)
  else if e.openRaises then ([.dispatchApp, .setVisible], .error .comFailure)
  else if e.saveRaises then
    ([.dispatchApp, .setVisible, .openWorkbook], .error .comFailure)
  else if e.closeRaises then
    ([.dispatchApp, .setVisible, .openWorkbook, .saveAsXlsx], .error .comFailure)
  else if e.quitRaises then
    ([.dispatchApp, .setVisible, .openWorkbook, .saveAsXlsx, .closeWorkbook],
      .error .comFailure)
  else
    ([.dispatchApp, .setVisible, .openWorkbook, .saveAsXlsx, .closeWorkbook, .quitApp],
      .ok ())

/-! ## `NewFileHandler._process` (the per-file pipeline) -/

/-- The observable per-file pipeline steps (log lines / stage entries) of
`NewFileHandler._process`, in source order. -/
inductive PAction where
  | skipOldLog
  | detectLog
  | unstableWarn
  | noWin32Err
  | convertStart
  | unsupportedWarn
  | transformRun
  | copyStamped
  | publishCopy
  | exceptionLog
deriving DecidableEq, Repr

/-- Which pipeline stage raised. -/
inductive PFailure where
  | convertErr
  | transformErr
  | copyErr
  | publishErr
deriving DecidableEq, Repr

/-- The environment of one `_process` invocation: the candidate's directory /
pattern disposition, its `stat` outcome and the current time, the value the
stability poll returns, the lowercased extension, the COM environment used if
a conversion is attempted, and which later stages raise. -/
structure PEnv where
  isDir : Bool
  matchesPattern : Bool
  mtime : Option Int
  now : Int
  stableReturns : Bool
  extLower : List Char
  com : ComEnv
  transformRaises : Bool
  copyRaises : Bool
  publishRaises : Bool

/-- The transform/copy/publish tail of the pipeline (after normalization has
produced an `.xlsx` path), threading the steps already performed. -/
def pipelineTail (e : PEnv) (acts : List PAction) : List PAction × Option PFailure :=
  if e.transformRaises then (acts ++ [.transformRun], some .transformErr)
  else if e.copyRaises then (acts ++ [.transformRun, .copyStamped], some .copyErr)
  else if e.publishRaises then
    (acts ++ [.transformRun, .copyStamped, .publishCopy], some .publishErr)
  else (acts ++ [.transformRun, .copyStamped, .publishCopy], none)

/-- The body of `_process` (the code inside the `try:`), as the list of steps
performed plus the error that escaped the body, if any.  Stage actions are
recorded when the stage is entered (the code logs before each call), the
error when the stage's call raises. -/
def pipelineBody (e : PEnv) : List PAction × Option PFailure :=
  if e.isDir then ([], none)
  else if !e.matchesPattern then ([], none)
  else if !is_file_fresh_enough e.mtime e.now 12 then ([.skipOldLog], none)
  else if !e.stableReturns then ([.detectLog, .unstableWarn], none)
  else if e.extLower = ".xls".toList then
    if !e.com.win32Available then ([.detectLog, .noWin32Err], none)
    else
      match excel_xls_to_xlsx e.com with
      | (_, .error _) => ([.detectLog, .convertStart], some .convertErr)
      | (_, .ok _) => pipelineTail e [.detectLog, .convertStart]
  else if e.extLower = ".xlsx".toList then pipelineTail e [.detectLog]
  else ([.detectLog, .unsupportedWarn], none)

/-- `NewFileHandler._process`: the `try`/`except Exception` wrapper.  Any
error escaping the body is logged (`logging.exception`) and swallowed, so the
handler always returns normally with a finite step trace. -/
def NewFileHandler_process (e : PEnv) : List PAction :=
  match pipelineBody e with
  | (acts, none) => acts
  | (acts, some _) => acts ++ [.exceptionLog]

/-! ## General lemmas -/

theorem startsWithL_append (s b : List Char) : startsWithL (s ++ b) s = true := by
  induction s with
  | nil => cases b <;> simp [startsWithL]
  | cons c t ih => simpa [startsWithL] using ih

theorem containsL_of_startsWithL {l s : List Char} (h : startsWithL l s = true) :
    containsL l s = true := by
  cases l with
  | nil => simpa [containsL] using h
  | cons c t => simp [containsL, h]

theorem containsL_append_mid (a s b : List Char) : containsL (a ++ (s ++ b)) s = true := by
  induction a with
  | nil => exact containsL_of_startsWithL (startsWithL_append s b)
  | cons c a ih => simp [containsL, ih]

theorem transformCell_hyperlink (c : Cell) (sep : List Char) :
    ((transformCell c sep).1).hyperlink = c.hyperlink := by
  unfold transformCell
  rcases h : cellDisplayUrl c with ⟨val, u⟩
  rcases u with _ | u
  · simp
  · by_cases hc : containsL val sep = true <;> simp [hc]

theorem transformCell_value (c : Cell) (sep : List Char) :
    ∃ s, ((transformCell c sep).1).value = some (.vStr s) := by
  unfold transformCell
  rcases h : cellDisplayUrl c with ⟨val, u⟩
  rcases u with _ | u
  · exact ⟨val, by simp⟩
  · by_cases hc : containsL val sep = true
    · exact ⟨val, by simp [hc]⟩
    · exact ⟨val ++ sep ++ u, by simp [hc]⟩

theorem transformRows_spec (col : Nat) (sep : List Char) :
    ∀ (rows : List Nat) (ws : Worksheet), rows.Nodup →
      ((transformRows col sep ws rows).1.maxRow = ws.maxRow)
      ∧ (∀ i j, (transformRows col sep ws rows).1.cells i j =
          if i ∈ rows ∧ j = col then (transformCell (ws.cells i col) sep).1
          else ws.cells i j)
      ∧ ((transformRows col sep ws rows).2 =
          (rows.map (fun r => if (transformCell (ws.cells r col) sep).2 then 1 else 0)).sum) := by
  intro rows
  induction rows with
  | nil => intro ws _; refine ⟨rfl, fun i j => by simp [transformRows], by simp [transformRows]⟩
  | cons r rs ih =>
    intro ws hnd
    rw [List.nodup_cons] at hnd
    obtain ⟨hr, hrs⟩ := hnd
    set ws' := updateCell ws r col (transformCell (ws.cells r col) sep).1 with hws'
    obtain ⟨ihmax, ihcells, ihcount⟩ := ih ws' hrs
    have hcells' : ∀ i, i ≠ r → ∀ j, ws'.cells i j = ws.cells i j := by
      intro i hir j
      simp [hws', updateCell, hir]
    have h1 : (transformRows col sep ws (r :: rs)).1 = (transformRows col sep ws' rs).1 := by
      simp [transformRows, hws']
    refine ⟨?_, ?_, ?_⟩
    · rw [h1, ihmax]; simp [hws', updateCell]
    · intro i j
      rw [h1, ihcells i j]
      by_cases hir : i = r
      · subst hir
        have hnotmem : i ∉ rs := hr
        simp only [hnotmem, false_and, if_false, List.mem_cons, true_or, true_and]
        simp [hws', updateCell]
      · by_cases hmem : i ∈ rs
        · simp [hmem, hir, hcells' i hir]
        · simp [hmem, hir, hcells' i hir]
    · have h2 : (transformRows col sep ws (r :: rs)).2 =
          (if (transformCell (ws.cells r col) sep).2 then 1 else 0)
            + (transformRows col sep ws' rs).2 := by
        simp [transformRows, hws']
      rw [h2, ihcount]
      have hmap : rs.map (fun x => if (transformCell (ws'.cells x col) sep).2 then 1 else 0)
          = rs.map (fun x => if (transformCell (ws.cells x col) sep).2 then 1 else 0) := by
        apply List.map_congr_left
        intro a ha
        rw [hcells' a (by rintro rfl; exact hr ha) col]
      rw [hmap]
      simp [List.sum_cons]

theorem transform_workbook_maxRow (ws : Worksheet) (start col : Nat) (sep : List Char) :
    (transform_workbook ws start col sep).1.maxRow = ws.maxRow := by
  unfold transform_workbook
  by_cases h : ws.maxRow < start
  · rw [if_pos h]
  · rw [if_neg h]
    exact (transformRows_spec col sep _ ws (List.nodup_range' _ _)).1

theorem transform_workbook_cells (ws : Worksheet) (start col : Nat) (sep : List Char)
    (i j : Nat) :
    (transform_workbook ws start col sep).1.cells i j =
      if start ≤ i ∧ i ≤ ws.maxRow ∧ j = col then (transformCell (ws.cells i col) sep).1
      else ws.cells i j := by
  unfold transform_workbook
  by_cases h : ws.maxRow < start
  · rw [if_pos h, if_neg (by rintro ⟨h1, h2, _⟩; omega)]
  · rw [if_neg h]
    rw [(transformRows_spec col sep _ ws (List.nodup_range' _ _)).2.1 i j]
    have hiff : (i ∈ List.range' start (ws.maxRow + 1 - start) ∧ j = col)
        ↔ (start ≤ i ∧ i ≤ ws.maxRow ∧ j = col) := by
      rw [List.mem_range'_1]
      omega
    rw [if_congr hiff rfl rfl]

theorem transform_workbook_count (ws : Worksheet) (start col : Nat) (sep : List Char) :
    (transform_workbook ws start col sep).2 =
      ((List.range' start (ws.maxRow + 1 - start)).map
        (fun r => if (transformCell (ws.cells r col) sep).2 then 1 else 0)).sum := by
  unfold transform_workbook
  by_cases h : ws.maxRow < start
  · rw [if_pos h]
    have : ws.maxRow + 1 - start = 0 := by omega
    simp [this]
  · rw [if_neg h]
    exact (transformRows_spec col sep _ ws (List.nodup_range' _ _)).2.2

/-- When the (stripped, case-folded) text does not begin with `=HYPERLINK(`,
`parse_hyperlink_formula` finds nothing. -/
theorem parse_hyperlink_formula_none {s : List Char}
    (h : startsWithCI (pyStrip s) hyperPat = false) :
    parse_hyperlink_formula s = (none, none) := by
  unfold parse_hyperlink_formula
  simp [h]

/-- If the url cascade ends with nothing, the cell had no truthy hyperlink and
the bare-url scan of the final text found nothing. -/
theorem cellDisplayUrl_none_inv (c : Cell) (val : List Char)
    (h : cellDisplayUrl c = (val, none)) :
    hyperlinkUrl c = none ∧ findUrl val = none := by
  unfold cellDisplayUrl at h
  rcases hp : preUrl c (cellText c) with ⟨v, u⟩
  rw [hp] at h
  rcases u with _ | u
  · simp only [Prod.mk.injEq] at h
    obtain ⟨rfl, h2⟩ := h
    refine ⟨?_, h2⟩
    unfold preUrl at hp
    rcases hh : hyperlinkUrl c with _ | t
    · rfl
    · rw [hh] at hp
      simp at hp
  · simp at h

/-- After one `transformCell`, if the cell had a truthy hyperlink or the
written-back text still contains a bare url, then the written-back text
contains the separator. -/
theorem transformCell_post (c : Cell) (sep : List Char)
    (h : (hyperlinkUrl c).isSome = true ∨
      (findUrl (cellText ((transformCell c sep).1))).isSome = true) :
    containsL (cellText ((transformCell c sep).1)) sep = true := by
  rcases hd : cellDisplayUrl c with ⟨val, u⟩
  rcases u with _ | url
  · obtain ⟨hh, hf⟩ := cellDisplayUrl_none_inv c val hd
    have hc1 : (transformCell c sep).1 = { c with value := some (.vStr val) } := by
      unfold transformCell
      rw [hd]
    rw [hc1] at h ⊢
    simp only [cellText, pyStr] at h ⊢
    rcases h with h | h
    · rw [hh] at h
      simp at h
    · rw [hf] at h
      simp at h
  · by_cases hcs : containsL val sep = true
    · have hc1 : (transformCell c sep).1 = { c with value := some (.vStr val) } := by
        unfold transformCell
        rw [hd]
        simp [hcs]
      rw [hc1]
      simpa [cellText, pyStr] using hcs
    · have hc1 : (transformCell c sep).1 =
          { c with value := some (.vStr (val ++ sep ++ url)) } := by
        unfold transformCell
        rw [hd]
        simp [hcs]
      rw [hc1]
      simp only [cellText, pyStr]
      rw [List.append_assoc]
      exact containsL_append_mid val sep url

/-- A cell holding string `s` whose hyperlink matches `c` and for which the
pass-1 postcondition holds is a fixed point of `transformCell` (provided `s`
does not re-parse as a hyperlink formula). -/
theorem transformCell_stable (c c1 : Cell) (s sep : List Char)
    (hc1v : c1.value = some (.vStr s))
    (hc1h : c1.hyperlink = c.hyperlink)
    (hre : startsWithCI (pyStrip s) hyperPat = false)
    (hpost : (hyperlinkUrl c).isSome = true ∨ (findUrl s).isSome = true →
      containsL s sep = true) :
    transformCell c1 sep = (c1, false) := by
  have htext : cellText c1 = s := by simp [cellText, hc1v, pyStr]
  have hhy : hyperlinkUrl c1 = hyperlinkUrl c := by
    unfold hyperlinkUrl
    rw [hc1h]
  have hcell : ({ c1 with value := some (.vStr s) } : Cell) = c1 := by rw [← hc1v]
  cases hh : hyperlinkUrl c with
  | some t =>
    have hcd : cellDisplayUrl c1 = (s, some t) := by
      simp [cellDisplayUrl, preUrl, htext, hhy, hh]
    have hcont : containsL s sep = true := hpost (Or.inl (by rw [hh]; rfl))
    unfold transformCell
    rw [hcd]
    simp [hcont, hcell]
  | none =>
    have hcd : cellDisplayUrl c1 = (s, findUrl s) := by
      by_cases hhead : s.head? = some '='
      · simp [cellDisplayUrl, preUrl, htext, hhy, hh, hhead, formulaTextUrl,
          parse_hyperlink_formula_none hre]
      · simp [cellDisplayUrl, preUrl, htext, hhy, hh, hhead]
    cases hf : findUrl s with
    | none =>
      rw [hf] at hcd
      unfold transformCell
      rw [hcd]
      simp [hcell]
    | some w =>
      rw [hf] at hcd
      have hcont : containsL s sep = true := hpost (Or.inr (by rw [hf]; rfl))
      unfold transformCell
      rw [hcd]
      simp [hcont, hcell]

/-- Second application of `transformCell` to a pass-1 output is the identity
(with `changed = false`), provided the pass-1 output text does not re-parse
as a hyperlink formula. -/
theorem transformCell_idem (c : Cell) (sep : List Char)
    (h : startsWithCI (pyStrip (cellText ((transformCell c sep).1))) hyperPat = false) :
    transformCell ((transformCell c sep).1) sep = ((transformCell c sep).1, false) := by
  obtain ⟨s, hs⟩ := transformCell_value c sep
  have htext : cellText ((transformCell c sep).1) = s := by simp [cellText, hs, pyStr]
  rw [htext] at h
  exact transformCell_stable c ((transformCell c sep).1) s sep hs
    (transformCell_hyperlink c sep) h
    (fun hor => by
      have := transformCell_post c sep (by rwa [htext])
      rwa [htext] at this)

/-- On a file whose size alternates between 1 and 2 every second, the
stability loop resets `same` at every sample and never returns, no matter how
many iterations are observed. -/
theorem isFileStableAux_alternating :
    ∀ (fuel t : Nat) (last : Int), last ≠ ((1 + t % 2 : Nat) : Int) →
      isFileStableAux (fun i => some (1 + i % 2)) 5 fuel t last 0 = none := by
  intro fuel
  induction fuel with
  | zero =>
    intro t last _
    rw [isFileStableAux]
    rw [if_neg (by omega : ¬ (5 : Nat) ≤ 0)]
  | succ n ih =>
    intro t last h
    rw [isFileStableAux]
    rw [if_neg (by omega : ¬ (5 : Nat) ≤ 0)]
    show (if ((((1 + t % 2 : Nat) : Int) = last) ∧ 0 < 1 + t % 2) then
        isFileStableAux (fun i => some (1 + i % 2)) 5 n (t + 1) last 1
      else isFileStableAux (fun i => some (1 + i % 2)) 5 n (t + 1) ((1 + t % 2 : Nat) : Int) 0)
        = none
    rw [if_neg (by rintro ⟨h1, _⟩; exact h h1.symm)]
    exact ih (t + 1) _ (by omega)

/-- A candidate that fails the freshness check produces at most the
informational skip log (nothing if the directory/pattern filters already
rejected it). -/
theorem process_of_not_fresh (e : PEnv)
    (hf : is_file_fresh_enough e.mtime e.now 12 = false) :
    NewFileHandler_process e =
      if e.isDir then [] else if !e.matchesPattern then [] else [PAction.skipOldLog] := by
  have hbody : pipelineBody e =
      if e.isDir then ([], none)
      else if !e.matchesPattern then ([], none) else ([PAction.skipOldLog], none) := by
    by_cases hd : e.isDir
    · simp [pipelineBody, hd]
    · by_cases hp : e.matchesPattern
      · simp [pipelineBody, hd, hp, hf]
      · simp [pipelineBody, hd, hp]
  unfold NewFileHandler_process
  rw [hbody]
  by_cases hd : e.isDir <;> by_cases hp : e.matchesPattern <;> simp [hd, hp]

/-- C7: a candidate whose last-modified timestamp is more than `maxAgeHours`
(12) before the current time fails the freshness check; its pipeline performs
no stage beyond the informational skip log (never converted, transformed or
published), and when it passes the directory/pattern filters the trace is
exactly the one skip log line. -/
theorem claim_stale_never_opened (e : PEnv) (mt : Int)
    (hm : e.mtime = some mt) (hage : 12 * 3600 < e.now - mt) :
    is_file_fresh_enough e.mtime e.now 12 = false
    ∧ (∀ a ∈ NewFileHandler_process e, a = PAction.skipOldLog)
    ∧ (e.isDir = false → e.matchesPattern = true →
        NewFileHandler_process e = [PAction.skipOldLog]) := by
  have hf : is_file_fresh_enough e.mtime e.now 12 = false := by
    rw [hm]
    exact decide_eq_false (by omega)
  have hproc := process_of_not_fresh e hf
  refine ⟨hf, ?_, ?_⟩
  · intro a ha
    rw [hproc] at ha
    by_cases hd : e.isDir <;> by_cases hp : e.matchesPattern <;>
      (simp [hd, hp] at ha; try exact ha)
  · intro hd hp
    rw [hproc]
    simp [hd, hp]

/-- The stale-file environment used by the C7 witness: matched pattern, a
13-hour-old modification time. -/
def pEnvStale : PEnv :=
  { isDir := false, matchesPattern := true, mtime := some 0, now := 13 * 3600,
    stableReturns := true, extLower := ".xls".toList,
    com := ⟨true, false, false, false, false, false⟩,
    transformRaises := false, copyRaises := false, publishRaises := false }

theorem claim_stale_never_opened_witness :
    is_file_fresh_enough pEnvStale.mtime pEnvStale.now 12 = false
    ∧ NewFileHandler_process pEnvStale = [PAction.skipOldLog] :=
  ⟨(claim_stale_never_opened pEnvStale 0 rfl (by decide)).1,
    (claim_stale_never_opened pEnvStale 0 rfl (by decide)).2.2 rfl rfl⟩

/-- C8: `_process` wraps the whole per-file pipeline in `try/except`: when the
body finishes without error the handler returns its trace unchanged, and when
any stage raises the handler appends the exception log and still returns
normally — no error propagates out of the handler, so the watch loop
survives every per-file failure. -/
theorem claim_exceptions_swallowed (e : PEnv) :
    ((pipelineBody e).2 = none → NewFileHandler_process e = (pipelineBody e).1)
    ∧ (∀ f, (pipelineBody e).2 = some f →
        NewFileHandler_process e = (pipelineBody e).1 ++ [PAction.exceptionLog]) := by
  unfold NewFileHandler_process
  rcases hb : pipelineBody e with ⟨acts, err⟩
  cases err with
  | none => exact ⟨fun _ => rfl, fun f hf => by simp at hf⟩
  | some f => exact ⟨fun hn => by simp at hn, fun g _ => rfl⟩

/-- The environment used by the C8 witness: a fresh, stable `.xlsx` candidate
whose transform stage raises. -/
def pEnvTransformFail : PEnv :=
  { isDir := false, matchesPattern := true, mtime := some 0, now := 0,
    stableReturns := true, extLower := ".xlsx".toList,
    com := ⟨true, false, false, false, false, false⟩,
    transformRaises := true, copyRaises := false, publishRaises := false }

theorem claim_exceptions_swallowed_witness :
    (pipelineBody pEnvTransformFail).2 = some PFailure.transformErr
    ∧ NewFileHandler_process pEnvTransformFail =
        (pipelineBody pEnvTransformFail).1 ++ [PAction.exceptionLog] :=
  ⟨by decide,
    (claim_exceptions_swallowed pEnvTransformFail).2 PFailure.transformErr (by decide)⟩

/-- C10: `is_file_fresh_enough` is total: a failed `stat` (vanished file)
yields `False` rather than an exception, and such a candidate's pipeline
performs at most the stale-skip log. -/
theorem claim_fresh_total_on_stat_error :
    (∀ (now maxHours : Int), is_file_fresh_enough none now maxHours = false)
    ∧ (∀ e : PEnv, e.mtime = none →
        ∀ a ∈ NewFileHandler_process e, a = PAction.skipOldLog) := by
  constructor
  · intro now maxHours
    rfl
  · intro e hm a ha
    have hf : is_file_fresh_enough e.mtime e.now 12 = false := by rw [hm]; rfl
    rw [process_of_not_fresh e hf] at ha
    by_cases hd : e.isDir <;> by_cases hp : e.matchesPattern <;>
      (simp [hd, hp] at ha; try exact ha)

/-- The vanished-file environment used by the C10 witness. -/
def pEnvNoStat : PEnv :=
  { isDir := false, matchesPattern := true, mtime := none, now := 0,
    stableReturns := true, extLower := ".xls".toList,
    com := ⟨true, false, false, false, false, false⟩,
    transformRaises := false, copyRaises := false, publishRaises := false }

theorem claim_fresh_total_on_stat_error_witness :
    is_file_fresh_enough none 12345 7 = false
    ∧ (∀ a ∈ NewFileHandler_process pEnvNoStat, a = PAction.skipOldLog) :=
  ⟨claim_fresh_total_on_stat_error.1 12345 7,
    claim_fresh_total_on_stat_error.2 pEnvNoStat rfl⟩

/-- C3 (counterexample): on a file whose size alternates every second, the
stability poll has neither accepted nor rejected after 20 one-second
iterations — four times the 5-second window — so the gate does not reject a
still-changing file after the polling window and its blocking time is not
bounded by `stabilityWindowSeconds`. -/
theorem claim_stability_window_counterexample :
    is_file_stable (fun i => some (1 + i % 2)) 5 20 = none := by decide

/-- C3 (amended): the stability poll loops once per second until the size has
stayed unchanged and non-zero for 5 consecutive samples (accept) or the file
disappears (reject); a file whose size keeps changing is polled indefinitely
(never returning within any number of iterations), and even a constantly
sized file blocks for 6 one-second iterations (first observation plus 5
confirmations) before acceptance — more than the claimed 5-second bound. -/
theorem claim_stability_poll_amended :
    (∀ fuel, is_file_stable (fun i => some (1 + i % 2)) 5 fuel = none)
    ∧ is_file_stable (fun i => if i < 3 then some (i + 1) else none) 5 10 = some false
    ∧ is_file_stable (fun _ => some 7) 5 6 = some true
    ∧ is_file_stable (fun _ => some 7) 5 5 = none :=
  ⟨fun fuel => isFileStableAux_alternating fuel 0 (-1) (by decide),
    by decide, by decide, by decide⟩

/-- C4 (counterexample): when `wb.SaveAs` raises, `excel_xls_to_xlsx`
propagates the exception after having opened the workbook, and neither
`wb.Close` nor `excel.Quit` runs — the automation handles are not released on
that exit path. -/
theorem claim_com_release_counterexample :
    (excel_xls_to_xlsx ⟨true, false, false, true, false, false⟩).2
        = .error .comFailure
    ∧ ComAction.openWorkbook ∈ (excel_xls_to_xlsx ⟨true, false, false, true, false, false⟩).1
    ∧ ComAction.closeWorkbook ∉ (excel_xls_to_xlsx ⟨true, false, false, true, false, false⟩).1
    ∧ ComAction.quitApp ∉ (excel_xls_to_xlsx ⟨true, false, false, true, false, false⟩).1 := by
  decide

/-- C4 (amended): the open/save/close/quit release sequence runs to completion
only on the success path; whenever any automation call raises, the error
propagates (to be caught by the per-file handler) and the final `Quit`
release never runs. -/
theorem claim_com_release_amended (e : ComEnv) :
    (e.win32Available = true → e.dispatchRaises = false → e.openRaises = false →
      e.saveRaises = false → e.closeRaises = false → e.quitRaises = false →
      excel_xls_to_xlsx e = ([.dispatchApp, .setVisible, .openWorkbook, .saveAsXlsx,
        .closeWorkbook, .quitApp], .ok ()))
    ∧ ((excel_xls_to_xlsx e).2 = .ok ()
        ∨ ComAction.quitApp ∉ (excel_xls_to_xlsx e).1) := by
  rcases e with ⟨w, d, o, s, c, q⟩
  cases w <;> cases d <;> cases o <;> cases s <;> cases c <;> cases q <;>
    exact ⟨by decide, by first | exact Or.inl rfl | exact Or.inr (by decide)⟩

theorem claim_com_release_amended_witness :
    excel_xls_to_xlsx ⟨true, false, false, false, false, false⟩ =
      ([.dispatchApp, .setVisible, .openWorkbook, .saveAsXlsx, .closeWorkbook,
        .quitApp], .ok ()) :=
  (claim_com_release_amended ⟨true, false, false, false, false, false⟩).1
    rfl rfl rfl rfl rfl rfl

/-- C1: for a target-column cell in the processed range whose url cascade
yields text `t` and url `u`, one pass writes exactly `t ++ sep ++ u` when
`sep` is not a substring of `t`; when no url is found, or `sep` already
occurs in `t`, the pass writes the text `t` back unchanged. -/
theorem claim_transform_appends_once (ws : Worksheet) (start col : Nat) (sep : List Char)
    (r : Nat) (h1 : start ≤ r) (h2 : r ≤ ws.maxRow) :
    (∀ t u, cellDisplayUrl (ws.cells r col) = (t, some u) → containsL t sep = false →
      ((transform_workbook ws start col sep).1.cells r col).value
        = some (.vStr (t ++ sep ++ u)))
    ∧ (∀ t, cellDisplayUrl (ws.cells r col) = (t, none) →
      ((transform_workbook ws start col sep).1.cells r col).value = some (.vStr t))
    ∧ (∀ t u, cellDisplayUrl (ws.cells r col) = (t, some u) → containsL t sep = true →
      ((transform_workbook ws start col sep).1.cells r col).value = some (.vStr t)) := by
  have hc := transform_workbook_cells ws start col sep r col
  rw [if_pos ⟨h1, h2, rfl⟩] at hc
  rw [hc]
  refine ⟨?_, ?_, ?_⟩
  · intro t u hd hcon
    unfold transformCell
    rw [hd]
    simp [hcon]
  · intro t hd
    unfold transformCell
    rw [hd]
  · intro t u hd hcon
    unfold transformCell
    rw [hd]
    simp [hcon]

/-- The plain-text workbook used by the C1 witness. -/
def wsC1 : Worksheet :=
  { maxRow := 19,
    cells := fun i j =>
      if i = 19 ∧ j = 2 then ⟨some (.vStr "see https://x/y for details".toList), none⟩
      else ⟨none, none⟩ }

theorem claim_transform_appends_once_witness :
    cellDisplayUrl (wsC1.cells 19 2)
        = ("see https://x/y for details".toList, some "https://x/y".toList)
    ∧ ((transform_workbook wsC1 19 2 " ### ".toList).1.cells 19 2).value
        = some (.vStr ("see https://x/y for details".toList
            ++ " ### ".toList ++ "https://x/y".toList)) :=
  ⟨by decide,
    (claim_transform_appends_once wsC1 19 2 " ### ".toList 19 (by decide) (by decide)).1
      "see https://x/y for details".toList "https://x/y".toList (by decide) (by decide)⟩

/-- C9: every processed target-column cell is written back as a string value
(`cell.value = str(...)` in all branches), and in particular an integer cell
with no discoverable url is replaced by the string rendering of the number,
so the pass does not preserve value types in the target column. -/
theorem claim_writeback_stringifies (ws : Worksheet) (start col : Nat) (sep : List Char)
    (r : Nat) (h1 : start ≤ r) (h2 : r ≤ ws.maxRow) :
    (∃ s, ((transform_workbook ws start col sep).1.cells r col).value
        = some (.vStr s))
    ∧ (∀ n : Int, ws.cells r col = ⟨some (.vInt n), none⟩ →
        (toString n).toList.head? ≠ some '=' →
        findUrl (toString n).toList = none →
        (transform_workbook ws start col sep).1.cells r col
          = ⟨some (.vStr (toString n).toList), none⟩) := by
  have hc := transform_workbook_cells ws start col sep r col
  rw [if_pos ⟨h1, h2, rfl⟩] at hc
  rw [hc]
  constructor
  · exact transformCell_value _ _
  · intro n hcell hhead hfind
    rw [hcell]
    have hhead' : (toString n).data.head? ≠ some '=' := hhead
    have hfind' : findUrl (toString n).data = none := hfind
    have hcd : cellDisplayUrl ⟨some (.vInt n), none⟩ = ((toString n).toList, none) := by
      simp [cellDisplayUrl, preUrl, cellText, pyStr, hyperlinkUrl, hhead', hfind',
        String.toList]
    unfold transformCell
    rw [hcd]

/-- The integer-cell workbook used by the C9 witness. -/
def wsC9 : Worksheet :=
  { maxRow := 19,
    cells := fun i j =>
      if i = 19 ∧ j = 2 then ⟨some (.vInt 42), none⟩ else ⟨none, none⟩ }

theorem claim_writeback_stringifies_witness :
    (transform_workbook wsC9 19 2 " ### ".toList).1.cells 19 2
      = ⟨some (.vStr "42".toList), none⟩ := by
  have h := (claim_writeback_stringifies wsC9 19 2 " ### ".toList 19 (by decide)
    (by decide)).2 42 (by decide) (by decide) (by decide)
  exact h

/-- C5: one transform pass leaves every cell strictly above `start_row` and
every cell outside the target column unchanged, and neither the change count
nor the transformed target cells depend on any cell outside the processed
range (rows `start_row..max_row` of the target column). -/
theorem claim_frame_and_reads (ws : Worksheet) (start col : Nat) (sep : List Char) :
    (∀ i j, i < start ∨ j ≠ col →
      (transform_workbook ws start col sep).1.cells i j = ws.cells i j)
    ∧ (∀ ws₂ : Worksheet, ws₂.maxRow = ws.maxRow →
        (∀ r, start ≤ r → r ≤ ws.maxRow → ws₂.cells r col = ws.cells r col) →
        (transform_workbook ws₂ start col sep).2 = (transform_workbook ws start col sep).2
        ∧ ∀ r, start ≤ r → r ≤ ws.maxRow →
            (transform_workbook ws₂ start col sep).1.cells r col
              = (transform_workbook ws start col sep).1.cells r col) := by
  constructor
  · intro i j hij
    rw [transform_workbook_cells]
    rw [if_neg]
    rintro ⟨ha, _, hc⟩
    rcases hij with h | h
    · omega
    · exact h hc
  · intro ws₂ hmax hag
    constructor
    · rw [transform_workbook_count, transform_workbook_count, hmax]
      apply congrArg List.sum
      apply List.map_congr_left
      intro a hamem
      rw [List.mem_range'_1] at hamem
      rw [hag a (by omega) (by omega)]
    · intro r hr1 hr2
      rw [transform_workbook_cells, transform_workbook_cells, hmax]
      rw [if_pos ⟨hr1, hr2, rfl⟩, if_pos ⟨hr1, hr2, rfl⟩]
      rw [hag r hr1 hr2]

/-- Worksheets used by the C5 witness: they agree on the processed range but
differ below `start_row`. -/
def wsC5a : Worksheet :=
  { maxRow := 19,
    cells := fun i j =>
      if i = 19 ∧ j = 2 then ⟨some (.vStr "plain".toList), some "https://h/t".toList⟩
      else ⟨some (.vStr "junk".toList), none⟩ }

def wsC5b : Worksheet :=
  { maxRow := 19,
    cells := fun i j =>
      if i = 19 ∧ j = 2 then ⟨some (.vStr "plain".toList), some "https://h/t".toList⟩
      else ⟨some (.vStr "other".toList), none⟩ }

theorem claim_frame_and_reads_witness :
    (transform_workbook wsC5a 19 2 " ### ".toList).1.cells 1 1 = wsC5a.cells 1 1
    ∧ (transform_workbook wsC5b 19 2 " ### ".toList).2
        = (transform_workbook wsC5a 19 2 " ### ".toList).2 :=
  ⟨(claim_frame_and_reads wsC5a 19 2 " ### ".toList).1 1 1 (Or.inl (by decide)),
    ((claim_frame_and_reads wsC5a 19 2 " ### ".toList).2 wsC5b rfl
      (fun r hr1 hr2 => by
        have hr2' : r ≤ 19 := hr2
        have hr : r = 19 := by omega
        rw [hr]
        decide)).1⟩

/-- The workbook refuting idempotence: one target cell whose hyperlink
formula has a label that itself re-parses as a hyperlink formula. -/
def wsC2 : Worksheet :=
  { maxRow := 19,
    cells := fun i j =>
      if i = 19 ∧ j = 2 then
        ⟨some (.vStr "=HYPERLINK(\",z\",\"=HYPERLINK(q\")".toList), none⟩
      else ⟨none, none⟩ }

/-- C2 (counterexample): on `wsC2` the first pass writes
`=HYPERLINK(q ### ,z` (count 1); the second pass re-parses that text as a
hyperlink formula, rewrites the cell again to `z ### q ###` and returns
count 1, not 0 — so two passes do not yield the content of one pass. -/
theorem claim_idempotence_counterexample :
    (transform_workbook (transform_workbook wsC2 19 2 " ### ".toList).1
        19 2 " ### ".toList).2 = 1
    ∧ (transform_workbook (transform_workbook wsC2 19 2 " ### ".toList).1
          19 2 " ### ".toList).1.cells 19 2
        ≠ (transform_workbook wsC2 19 2 " ### ".toList).1.cells 19 2
    ∧ ((transform_workbook wsC2 19 2 " ### ".toList).1.cells 19 2).value
        = some (.vStr "=HYPERLINK(q ### ,z".toList)
    ∧ ((transform_workbook (transform_workbook wsC2 19 2 " ### ".toList).1
          19 2 " ### ".toList).1.cells 19 2).value
        = some (.vStr "z ### q ###".toList) :=
  ⟨by decide, by decide, by decide, by decide⟩

/-- C2 (amended): two passes agree with one pass — the second pass changes no
cell and returns count 0 — provided no first-pass output text in the
processed range itself re-parses as a hyperlink formula (i.e. none of the
written-back texts starts, after stripping and case folding, with
`=HYPERLINK(`). -/
theorem claim_idempotence_amended (ws : Worksheet) (start col : Nat) (sep : List Char)
    (h : ∀ r ∈ List.range' start (ws.maxRow + 1 - start),
      startsWithCI (pyStrip (cellText
        ((transform_workbook ws start col sep).1.cells r col))) hyperPat = false) :
    transform_workbook ((transform_workbook ws start col sep).1) start col sep
      = ((transform_workbook ws start col sep).1, 0) := by
  set ws1 := (transform_workbook ws start col sep).1 with hws1
  have hmax : ws1.maxRow = ws.maxRow := transform_workbook_maxRow ws start col sep
  have hcellfix : ∀ r, start ≤ r → r ≤ ws.maxRow →
      transformCell (ws1.cells r col) sep = (ws1.cells r col, false) := by
    intro r hr1 hr2
    have hc := transform_workbook_cells ws start col sep r col
    rw [if_pos ⟨hr1, hr2, rfl⟩] at hc
    rw [← hws1] at hc
    rw [hc]
    apply transformCell_idem
    have hh := h r (by rw [List.mem_range'_1]; omega)
    rw [hc] at hh
    exact hh
  have hfst : (transform_workbook ws1 start col sep).1 = ws1 := by
    apply Worksheet.ext
    · rw [transform_workbook_maxRow]
    · funext i j
      rw [transform_workbook_cells]
      by_cases hin : start ≤ i ∧ i ≤ ws1.maxRow ∧ j = col
      · obtain ⟨ha, hb, rfl⟩ := hin
        rw [if_pos ⟨ha, hb, rfl⟩, hcellfix i ha (by omega)]
      · rw [if_neg hin]
  have hsnd : (transform_workbook ws1 start col sep).2 = 0 := by
    rw [transform_workbook_count]
    apply List.sum_eq_zero
    intro x hx
    rw [List.mem_map] at hx
    obtain ⟨r, hrmem, hrx⟩ := hx
    rw [List.mem_range'_1] at hrmem
    rw [hcellfix r (by omega) (by omega)] at hrx
    simpa using hrx.symm
  exact Prod.ext hfst hsnd

/-- The plain-text workbook used by the C2 witness: its pass-1 output does
not re-parse as a formula, so the second pass is the identity with count 0. -/
def wsC2w : Worksheet :=
  { maxRow := 19,
    cells := fun i j =>
      if i = 19 ∧ j = 2 then ⟨some (.vStr "see https://x/y".toList), none⟩
      else ⟨none, none⟩ }

theorem claim_idempotence_amended_witness :
    (∀ r ∈ List.range' 19 (wsC2w.maxRow + 1 - 19),
      startsWithCI (pyStrip (cellText
        ((transform_workbook wsC2w 19 2 " ### ".toList).1.cells r 2))) hyperPat = false)
    ∧ transform_workbook ((transform_workbook wsC2w 19 2 " ### ".toList).1)
        19 2 " ### ".toList
      = ((transform_workbook wsC2w 19 2 " ### ".toList).1, 0) :=
  ⟨by decide, claim_idempotence_amended wsC2w 19 2 " ### ".toList (by decide)⟩

theorem dropWhile_id_of_head {p : Char → Bool} {l : List Char} {a : Char}
    (ha : l.head? = some a) (hpa : p a = false) : l.dropWhile p = l := by
  cases l with
  | nil => simp at ha
  | cons c tl =>
    simp only [List.head?_cons, Option.some.injEq] at ha
    subst ha
    rw [List.dropWhile_cons, if_neg (by simp [hpa])]

theorem pyStrip_eq_self {l : List Char} {a b : Char}
    (ha : l.head? = some a) (hA : isPyWS a = false)
    (hb : l.getLast? = some b) (hB : isPyWS b = false) : pyStrip l = l := by
  unfold pyStrip
  rw [dropWhile_id_of_head ha hA,
    dropWhile_id_of_head (by rw [List.head?_reverse]; exact hb) hB,
    List.reverse_reverse]

theorem getLast?_quoted (x : List Char) : ('"' :: (x ++ ['"'])).getLast? = some '"' := by
  rw [show ('"' :: (x ++ ['"'])) = ('"' :: x) ++ ['"'] from by simp]
  exact List.getLast?_concat _

theorem pyStrip_quoted (x : List Char) :
    pyStrip ('"' :: (x ++ ['"'])) = '"' :: (x ++ ['"']) :=
  pyStrip_eq_self rfl (by decide) (getLast?_quoted x) (by decide)

theorem cleanArg_quoted (x : List Char) : cleanArg ('"' :: (x ++ ['"'])) = x := by
  unfold cleanArg
  rw [if_pos ⟨rfl, getLast?_quoted x⟩]
  simp

theorem rstripChar_concat_quote (xs : List Char) :
    rstripChar ')' (xs ++ ['"', ')']) = xs ++ ['"'] := by
  unfold rstripChar
  rw [show (xs ++ ['"', ')']) = (xs ++ ['"']) ++ [')'] from by simp,
    List.reverse_append]
  simp [List.dropWhile_cons]

theorem startsWithCI_append_right :
    ∀ (pat pre rest : List Char), startsWithCI pre pat = true →
      startsWithCI (pre ++ rest) pat = true
  | [], _, _, _ => by simp [startsWithCI]
  | p :: ps, [], _, h => by simp [startsWithCI] at h
  | p :: ps, c :: pre, rest, h => by
    rw [List.cons_append]
    simp only [startsWithCI, Bool.and_eq_true] at h ⊢
    exact ⟨h.1, startsWithCI_append_right ps pre rest h.2⟩

theorem scanArgs_quoted (u : List Char) (h : ∀ c ∈ u, ¬ c = '"') :
    ∀ (rest buf parts : _), scanArgs (u ++ rest) true buf parts
      = scanArgs rest true (buf ++ u) parts := by
  induction u with
  | nil => intro rest buf parts; simp
  | cons c u ih =>
    intro rest buf parts
    have hc : ¬ c = '"' := h c (by simp)
    rw [List.cons_append, scanArgs, if_neg hc, if_neg (by simp)]
    rw [ih (fun d hd => h d (by simp [hd])) rest (buf ++ [c]) parts]
    simp

/-- A two-argument hyperlink-construction formula with quoted arguments:
`=HYPERLINK("<u>","<t>")`. -/
def hyperFormula (u t : List Char) : List Char :=
  ['=', 'H', 'Y', 'P', 'E', 'R', 'L', 'I', 'N', 'K', '('] ++ ('"' :: u)
    ++ ('"' :: ',' :: '"' :: t) ++ ['"', ')']

theorem parse_hyperlink_formula_quoted_args (u t : List Char)
    (hu : u ≠ []) (ht : t ≠ []) (hqu : ∀ c ∈ u, ¬ c = '"') (hqt : ∀ c ∈ t, ¬ c = '"') :
    parse_hyperlink_formula (hyperFormula u t) = (some u, some t) := by
  have hform : hyperFormula u t
      = '=' :: 'H' :: 'Y' :: 'P' :: 'E' :: 'R' :: 'L' :: 'I' :: 'N' :: 'K' :: '(' ::
        ('"' :: (u ++ ('"' :: ',' :: '"' :: (t ++ ['"', ')'])))) := by
    simp [hyperFormula]
  have hlast : (hyperFormula u t).getLast? = some ')' := by
    unfold hyperFormula
    rw [List.getLast?_append]
    rfl
  have hstrip : pyStrip (hyperFormula u t) = hyperFormula u t := by
    apply pyStrip_eq_self (a := '=') (b := ')')
    · rw [hform]; rfl
    · decide
    · exact hlast
    · decide
  have hguard : startsWithCI (hyperFormula u t) hyperPat = true := by
    rw [hform]
    exact startsWithCI_append_right hyperPat
      ['=', 'H', 'Y', 'P', 'E', 'R', 'L', 'I', 'N', 'K', '('] _ (by decide)
  have hdrop : ((hyperFormula u t).dropWhile (fun c => !(c = '('))).drop 1
      = '"' :: (u ++ ('"' :: ',' :: '"' :: (t ++ ['"', ')']))) := by
    rw [hform]
    rw [List.dropWhile_cons, if_pos (by decide)]
    rw [List.dropWhile_cons, if_pos (by decide)]
    rw [List.dropWhile_cons, if_pos (by decide)]
    rw [List.dropWhile_cons, if_pos (by decide)]
    rw [List.dropWhile_cons, if_pos (by decide)]
    rw [List.dropWhile_cons, if_pos (by decide)]
    rw [List.dropWhile_cons, if_pos (by decide)]
    rw [List.dropWhile_cons, if_pos (by decide)]
    rw [List.dropWhile_cons, if_pos (by decide)]
    rw [List.dropWhile_cons, if_pos (by decide)]
    rw [List.dropWhile_cons, if_neg (by decide)]
    rfl
  have hinside : rstripChar ')' (((hyperFormula u t).dropWhile (fun c => !(c = '('))).drop 1)
      = '"' :: (u ++ ('"' :: ',' :: '"' :: (t ++ ['"']))) := by
    rw [hdrop]
    rw [show ('"' :: (u ++ ('"' :: ',' :: '"' :: (t ++ ['"', ')']))))
        = ('"' :: (u ++ ('"' :: ',' :: '"' :: t))) ++ ['"', ')'] from by simp,
      rstripChar_concat_quote]
    simp
  have hscan : scanArgs ('"' :: (u ++ ('"' :: ',' :: '"' :: (t ++ ['"'])))) false [] []
      = ['"' :: (u ++ ['"']), '"' :: (t ++ ['"'])] := by
    rw [scanArgs, if_pos rfl]
    simp only [Bool.not_false, List.nil_append]
    rw [scanArgs_quoted u hqu]
    rw [scanArgs, if_pos rfl]
    simp only [Bool.not_true]
    rw [scanArgs, if_neg (by decide), if_pos (by decide)]
    rw [scanArgs, if_pos rfl]
    simp only [Bool.not_false, List.nil_append]
    rw [scanArgs_quoted t hqt]
    rw [scanArgs, if_pos rfl]
    simp only [Bool.not_true]
    rw [scanArgs]
    rw [if_neg (by simp)]
    have h1 : (['"'] ++ u) ++ ['"'] = '"' :: (u ++ ['"']) := by simp
    have h2 : (['"'] ++ t) ++ ['"'] = '"' :: (t ++ ['"']) := by simp
    rw [h1, h2, pyStrip_quoted, pyStrip_quoted]
    simp
  simp only [parse_hyperlink_formula]
  rw [hstrip, if_pos hguard, hinside, hscan]
  simp [cleanArg_quoted, hu, ht]

/-- C6: the formula parser scans the argument list respecting quoted-string
boundaries (a `,`/`;` between quotes is not a separator: any quote-free
arguments survive intact), strips the surrounding quotes, and yields the
first argument as the url and the second as the replacement text; in
particular a cell holding `=HYPERLINK("https://x/y", "Label")` with no native
hyperlink becomes `Label ### https://x/y` with `changed = true`. -/
theorem claim_hyperlink_formula_parse :
    (∀ u t : List Char, u ≠ [] → t ≠ [] → (∀ c ∈ u, ¬ c = '"') → (∀ c ∈ t, ¬ c = '"') →
      parse_hyperlink_formula (hyperFormula u t) = (some u, some t))
    ∧ transformCell ⟨some (.vStr "=HYPERLINK(\"https://x/y\", \"Label\")".toList), none⟩
        " ### ".toList
      = (⟨some (.vStr "Label ### https://x/y".toList), none⟩, true) :=
  ⟨fun u t hu ht hqu hqt => parse_hyperlink_formula_quoted_args u t hu ht hqu hqt,
    by decide⟩

theorem claim_hyperlink_formula_parse_witness :
    parse_hyperlink_formula (hyperFormula "https://x/a,b".toList "L".toList)
        = (some "https://x/a,b".toList, some "L".toList)
    ∧ hyperFormula "https://x/a,b".toList "L".toList
        = "=HYPERLINK(\"https://x/a,b\",\"L\")".toList :=
  ⟨claim_hyperlink_formula_parse.1 "https://x/a,b".toList "L".toList
      (by decide) (by decide) (by decide) (by decide),
    by decide⟩
